import Mathlib

/-!
# danaagain: the state-synchronisation server (`src/server/main.cpp`)

A shallow embedding of the server's event loop: the `players` map, the three
ENet event branches of `main` (connect / receive / disconnect) and the
broadcast loop that follows them, together with the two plain structs of
`src/engine/include/engine.h` (`EVec`, `PlayerColor`) that travel on the wire,
and the method `PlayerEntity::takeDamage` of `src/engine/engine.cpp`.

Modelling decisions, all documented at the definition they concern:

* a `float` is its 32-bit IEEE-754 pattern, `+=` is binary32 addition with
  round-to-nearest-even (`F32.add`);
* a packet is the list of its bytes; the casts `(PlayerColor*)data` and
  `(EVec*)data` read 4 and 8 bytes whatever `dataLength` is, so a receive
  event also carries the bytes that lie in memory after the packet (`past`);
* `std::unordered_map<ENetPeer*, PlayerInfo>` is an association list whose
  order is the map's iteration order.
-/

namespace Danaagain

/-! ## Bytes and floats -/

/-- An `unsigned char`. -/
abbrev Byte := Fin 256

/-- An `ENetPeer*`: the address of the peer object, used as the map key. -/
abbrev Handle := Nat

/-- A C++ `float`, as its IEEE-754 binary32 bit pattern
(bit 31 sign, bits 30..23 biased exponent, bits 22..0 fraction). -/
structure F32 where
  bits : Fin 4294967296
deriving DecidableEq, Repr

namespace F32

/-- Sign bit. -/
def sign (f : F32) : Bool := decide (2147483648 ≤ f.bits.val)

/-- Biased exponent field. -/
def expo (f : F32) : Nat := f.bits.val / 8388608 % 256

/-- Fraction field. -/
def frac (f : F32) : Nat := f.bits.val % 8388608

def isNaN (f : F32) : Bool := f.expo == 255 && f.frac != 0

def isInf (f : F32) : Bool := f.expo == 255 && f.frac == 0

/-- Magnitude of a finite float, counted in units of `2^-149` (the smallest
subnormal): a subnormal is `frac`, a normal is `(2^23 + frac) * 2^(expo-1)`. -/
def mag (f : F32) : Nat :=
  if f.expo = 0 then f.frac else (8388608 + f.frac) * 2 ^ (f.expo - 1)

/-- Signed value of a finite float in units of `2^-149`. -/
def toInt (f : F32) : Int := if f.sign then -(f.mag : Int) else (f.mag : Int)

/-- How many binary digits `n` has beyond 24 (`fuel` bounds the search). -/
def excess : Nat → Nat → Nat
  | 0, _ => 0
  | fuel + 1, n => if n < 16777216 then 0 else excess fuel (n / 2) + 1

/-- Round a magnitude (units of `2^-149`) to the nearest binary32 magnitude,
ties to even, and return its 31 exponent-and-fraction bits. Below `2^24` the
magnitude is representable and its bits are the magnitude itself; above, the
24 leading digits `q` are kept, rounded on the `k` dropped ones, and the bits
are `k * 2^23 + q` (a carry out of `q` moves into the exponent). A result at
or above the pattern of infinity is infinity. -/
def roundMag (n : Nat) : Nat :=
  if n < 16777216 then n
  else
    let k := excess 256 n
    let q := n / 2 ^ k
    let r := n % 2 ^ k
    let half := 2 ^ (k - 1)
    let q1 := if half < r ∨ (r = half ∧ q % 2 = 1) then q + 1 else q
    let m := k * 8388608 + q1
    if 2139095040 ≤ m then 2139095040 else m

/-- Assemble a float from its sign and its 31 low bits. -/
def ofParts (neg : Bool) (m : Nat) : F32 :=
  ⟨Fin.ofNat ((if neg then 2147483648 else 0) + m % 2147483648)⟩

/-- The quiet NaN `0x7FC00000`. Which NaN an operation yields is not fixed by
the language; every NaN result is modelled by this one. -/
def qNaN : F32 := ⟨2143289344⟩

/-- Binary32 addition, round to nearest even: the `+=` of `main.cpp:50-51`.
The exact sum of two finite floats is an integer number of `2^-149`; an exact
zero is `-0` only when both operands are negative (zeros). -/
def add (a b : F32) : F32 :=
  if a.isNaN || b.isNaN then qNaN
  else if a.isInf then (if b.isInf && (a.sign != b.sign) then qNaN else a)
  else if b.isInf then b
  else
    let s := a.toInt + b.toInt
    if s = 0 then ofParts (a.sign && b.sign) 0
    else ofParts (decide (s < 0)) (roundMag s.natAbs)

instance : Add F32 := ⟨add⟩

/-- Negation: the sign bit is flipped. -/
def neg (a : F32) : F32 := ⟨Fin.ofNat ((a.bits.val + 2147483648) % 4294967296)⟩

/-- Binary32 subtraction, the `-=` of `engine.cpp:61`: `a - b` is `a + (-b)`. -/
def sub (a b : F32) : F32 := add a (neg b)

instance : Sub F32 := ⟨sub⟩

/-- Position of a float that is not a NaN on the number line: the 31 low bits
with the sign applied, so that both zeros are at 0 and the infinities are at
the two ends. -/
def key (a : F32) : Int :=
  if a.sign then -((a.bits.val % 2147483648 : Nat) : Int) else ((a.bits.val % 2147483648 : Nat) : Int)

/-- The comparison `a <= b` of C++ on floats: false when an operand is a NaN. -/
def le (a b : F32) : Bool := !a.isNaN && !b.isNaN && decide (a.key ≤ b.key)

/-- The comparison `a < b` of C++ on floats: false when an operand is a NaN. -/
def lt (a b : F32) : Bool := !a.isNaN && !b.isNaN && decide (a.key < b.key)

/-- The float a decimal integer literal such as `960.0f` denotes. -/
def ofInt (z : Int) : F32 := ofParts (decide (z < 0)) (roundMag (z.natAbs * 2 ^ 149))

/-- Object representation of a float: its four bytes, least significant
first (the byte order of the x86 and ARM targets ENet runs on). -/
def toBytes (f : F32) : List Byte :=
  [Fin.ofNat (f.bits.val % 256), Fin.ofNat (f.bits.val / 256 % 256),
   Fin.ofNat (f.bits.val / 65536 % 256), Fin.ofNat (f.bits.val / 16777216 % 256)]

/-- The float whose object representation is the four given bytes. -/
def ofBytes (b0 b1 b2 b3 : Byte) : F32 :=
  ⟨Fin.ofNat (b0.val + 256 * b1.val + 65536 * b2.val + 16777216 * b3.val)⟩

end F32

/-! ## The structs of `engine.h` and `main.cpp` -/

/-- The `EVec` struct of `engine.h:60-63`. -/
structure EVec where
  x : F32
  y : F32
deriving DecidableEq, Repr

/-- The `PlayerColor` struct of `engine.h:34-39`. -/
structure PlayerColor where
  r : Byte
  g : Byte
  b : Byte
  a : Byte
deriving DecidableEq, Repr

/-- The `PlayerInfo` struct of `main.cpp:12-15`. -/
structure PlayerInfo where
  position : EVec
  color : PlayerColor
deriving DecidableEq, Repr

/-- A value-initialised `PlayerInfo`, what `players[peer]` inserts for a key
that is absent: every member zero. -/
def PlayerInfo.zero : PlayerInfo := ⟨⟨⟨0⟩, ⟨0⟩⟩, ⟨0, 0, 0, 0⟩⟩

/-- The aggregate `PlayerInfo{{960.0f, 540.0f}}` of `main.cpp:38`: the
position is given, the color member is value-initialised. -/
def PlayerInfo.spawn : PlayerInfo := ⟨⟨F32.ofInt 960, F32.ofInt 540⟩, ⟨0, 0, 0, 0⟩⟩

/-! ## Reading a received packet -/

/-- Byte `i` behind the pointer `event.packet->data`. The buffer holds the
`data.length` bytes of the payload; the casts of `main.cpp:42,48` read behind
the pointer without looking at `dataLength`, so an index at or past the end
yields whatever the memory after the buffer holds, `past`. -/
def peek (data : List Byte) (past : Nat → Byte) (i : Nat) : Byte :=
  if h : i < data.length then data.get ⟨i, h⟩ else past (i - data.length)

/-- The value of `*(PlayerColor*)event.packet->data` (`main.cpp:42-43`). -/
def readColor (data : List Byte) (past : Nat → Byte) : PlayerColor :=
  ⟨peek data past 0, peek data past 1, peek data past 2, peek data past 3⟩

/-- The value of `*(EVec*)event.packet->data` (`main.cpp:48`). -/
def readEVec (data : List Byte) (past : Nat → Byte) : EVec :=
  ⟨F32.ofBytes (peek data past 0) (peek data past 1) (peek data past 2) (peek data past 3),
   F32.ofBytes (peek data past 4) (peek data past 5) (peek data past 6) (peek data past 7)⟩

/-- Object representation of an `EVec`: the 8 bytes a client sends as a
movement delta. -/
def EVec.toBytes (v : EVec) : List Byte := v.x.toBytes ++ v.y.toBytes

/-- Object representation of a `PlayerColor`: the 4 bytes r, g, b, a. -/
def PlayerColor.toBytes (c : PlayerColor) : List Byte := [c.r, c.g, c.b, c.a]

/-! ## The `players` map -/

/-- The map `std::unordered_map<ENetPeer*, PlayerInfo> players`
(`main.cpp:17`), as the list of its entries in iteration order. The order an
unordered map iterates in is unspecified; a new key is put at the front here,
and nothing below depends on where it goes. -/
abbrev Registry := List (Handle × PlayerInfo)

namespace Registry

/-- The keys, in iteration order. -/
def handles (players : Registry) : List Handle := players.map Prod.fst

/-- The test `players.find(peer) != players.end()`. -/
def contains (players : Registry) (peer : Handle) : Bool :=
  players.any (fun e => decide (e.1 = peer))

/-- The mapped value `players.find(peer)->second`, when there is one. -/
def find : Registry → Handle → Option PlayerInfo
  | [], _ => none
  | (k, v) :: rest, peer => if k = peer then some v else find rest peer

/-- Apply `f` to the value stored under `peer`. -/
def update : Registry → Handle → (PlayerInfo → PlayerInfo) → Registry
  | [], _, _ => []
  | (k, v) :: rest, peer, f =>
      if k = peer then (k, f v) :: update rest peer f else (k, v) :: update rest peer f

/-- An access `players[peer]` followed by a write through the reference:
`operator[]` inserts a value-initialised `PlayerInfo` when the key is absent,
then `f` is applied to the mapped value. -/
def index (players : Registry) (peer : Handle) (f : PlayerInfo → PlayerInfo) : Registry :=
  if players.contains peer then players.update peer f
  else (peer, f PlayerInfo.zero) :: players

/-- The call `players.erase(peer)`. -/
def erase (players : Registry) (peer : Handle) : Registry :=
  players.filter (fun e => decide (e.1 ≠ peer))

end Registry

/-! ## The event loop -/

/-- An `ENetEvent` as `enet_host_service` hands it to the loop. A receive
event carries the payload and the memory that follows its buffer. -/
inductive Event where
  | connect (peer : Handle)
  | receive (peer : Handle) (data : List Byte) (past : Nat → Byte)
  | disconnect (peer : Handle)

/-- One pass through the body of the inner `while` of `main`
(`main.cpp:33-58`). -/
def processEvent (players : Registry) : Event → Registry
  | .connect peer =>
      -- players[event.peer] = PlayerInfo{{960.0f, 540.0f}};
      players.index peer (fun _ => PlayerInfo.spawn)
  | .receive peer data past =>
      if players.contains peer = false then
        -- players[event.peer].color = *receivedColor;
        players.index peer (fun info => { info with color := readColor data past })
      else
        -- playerInfo.position.x += delta->x; playerInfo.position.y += delta->y;
        players.index peer (fun info =>
          { info with position := ⟨info.position.x + (readEVec data past).x,
                                   info.position.y + (readEVec data past).y⟩ })
  | .disconnect peer =>
      -- players.erase(event.peer);
      players.erase peer

/-- The inner `while (enet_host_service(...) > 0)` loop over the events that
are pending. -/
def drain (players : Registry) (events : List Event) : Registry :=
  events.foldl processEvent players

/-! ## The broadcast -/

/-- The vector `playerData` built at `main.cpp:64-68`. -/
def playerData (players : Registry) : List (EVec × PlayerColor) :=
  players.map (fun player => (player.2.position, player.2.color))

/-- Object representation of one `std::pair<EVec, PlayerColor>`: 8 bytes of
`EVec`, 4 bytes of `PlayerColor`, no padding (`sizeof` is 12). -/
def encodeEntry (e : EVec × PlayerColor) : List Byte := e.1.toBytes ++ e.2.toBytes

/-- The bytes `enet_packet_create(playerData.data(), playerData.size() * sizeof(...))`
copies into the packet (`main.cpp:70`). -/
def encodeRoster : List (EVec × PlayerColor) → List Byte
  | [] => []
  | e :: rest => encodeEntry e ++ encodeRoster rest

/-- A call `enet_peer_send(peer, 0, packet)`. -/
structure Send where
  peer : Handle
  payload : List Byte
deriving DecidableEq, Repr

/-- The broadcast loop of `main.cpp:62-72`: for every entry of `players` a
packet with the whole of `playerData` is sent to that entry's peer. The loop
reads `players` and writes nothing to it; the map is returned as it is left. -/
def broadcast (players : Registry) : Registry × List Send :=
  (players, players.map (fun pair => ⟨pair.1, encodeRoster (playerData players)⟩))

/-- Modelled from the spec: the repository has no decoder of the roster
frame; this one follows the layout the spec states, per entry x and y as
32-bit floats, then the bytes r, g, b, a, and fails on a length that is not a
multiple of 12. -/
def decodeRoster : List Byte → Option (List (EVec × PlayerColor))
  | [] => some []
  | x0 :: x1 :: x2 :: x3 :: y0 :: y1 :: y2 :: y3 :: r :: g :: b :: a :: rest =>
      (decodeRoster rest).map
        (fun l => (⟨F32.ofBytes x0 x1 x2 x3, F32.ofBytes y0 y1 y2 y3⟩, ⟨r, g, b, a⟩) :: l)
  | _ => none

/-! ## The player entity of `engine.h` -/

/-- The `InventoryItem_s` struct of `engine.h:69-73`. -/
structure InventoryItem_s where
  name : String
  maxStackSize : Int
  amount : Int
deriving DecidableEq, Repr

/-- The `Inventory` class of `engine.h:76-91`. -/
structure Inventory where
  items : List InventoryItem_s
  rows : Int
  cols : Int
deriving DecidableEq, Repr

/-- The data members of the `PlayerEntity` class of `engine.h:94-110`. -/
structure PlayerEntity where
  name : String
  color : PlayerColor
  pos : EVec
  health : F32
  inventory : Inventory
deriving DecidableEq, Repr

/-- The method `PlayerEntity::takeDamage` of `engine.cpp:60-67`: the value
returned and the object after the call. -/
def PlayerEntity.takeDamage (p : PlayerEntity) (amount : F32) : Bool × PlayerEntity :=
  -- health -= amount;
  let p1 : PlayerEntity := { p with health := p.health - amount }
  -- if (health <= 0.0f) { health = 0.0f; return true; }
  if F32.le p1.health (F32.ofInt 0) = true then (true, { p1 with health := F32.ofInt 0 })
  -- return false;
  else (false, p1)

/-! ## Event sequences that follow the connection lifecycle -/

/-- The condition of a well-sequenced run of events: every receive event of a
handle falls between a connect event and the next disconnect event of that
handle. `connected` lists the handles whose connection is open before the
run. -/
def wellSequenced (connected : List Handle) : List Event → Bool
  | [] => true
  | .connect h :: es => wellSequenced (h :: connected) es
  | .receive h _ _ :: es => decide (h ∈ connected) && wellSequenced connected es
  | .disconnect h :: es => wellSequenced (connected.filter (fun k => decide (k ≠ h))) es

/-! ## Facts about the map operations -/

namespace Registry

theorem contains_eq_true_iff (players : Registry) (peer : Handle) :
    players.contains peer = true ↔ peer ∈ players.handles := by
  induction players with
  | nil => simp [contains, handles]
  | cons e rest ih =>
      simp only [contains, handles, List.any_cons, List.map_cons, List.mem_cons,
        Bool.or_eq_true, decide_eq_true_eq] at ih ⊢
      rw [ih]
      constructor
      · rintro (h | h)
        · exact Or.inl h.symm
        · exact Or.inr h
      · rintro (h | h)
        · exact Or.inl h.symm
        · exact Or.inr h

theorem contains_eq_false_iff (players : Registry) (peer : Handle) :
    players.contains peer = false ↔ peer ∉ players.handles := by
  rw [← contains_eq_true_iff]
  cases players.contains peer <;> simp

theorem find_eq_none_iff (players : Registry) (peer : Handle) :
    players.find peer = none ↔ peer ∉ players.handles := by
  induction players with
  | nil => simp [find, handles]
  | cons e rest ih =>
      obtain ⟨k, v⟩ := e
      by_cases hk : k = peer
      · simp [find, handles, hk]
      · have hk2 : ¬ peer = k := fun h => hk h.symm
        simp only [find, hk, if_false, handles, List.map_cons, List.mem_cons, hk2, false_or]
        exact ih

theorem mem_handles_of_find {players : Registry} {peer : Handle} {info : PlayerInfo}
    (h : players.find peer = some info) : peer ∈ players.handles := by
  by_contra hn
  rw [(find_eq_none_iff players peer).mpr hn] at h
  cases h

theorem handles_update (players : Registry) (peer : Handle) (f : PlayerInfo → PlayerInfo) :
    (players.update peer f).handles = players.handles := by
  induction players with
  | nil => rfl
  | cons e rest ih =>
      obtain ⟨k, v⟩ := e
      simp only [handles] at ih
      by_cases hk : k = peer <;> simp [update, handles, hk, ih]

theorem find_update_same (players : Registry) (peer : Handle) (f : PlayerInfo → PlayerInfo) :
    (players.update peer f).find peer = (players.find peer).map f := by
  induction players with
  | nil => rfl
  | cons e rest ih =>
      obtain ⟨k, v⟩ := e
      by_cases hk : k = peer <;> simp [update, find, hk, ih]

theorem find_update_other (players : Registry) (peer k : Handle) (f : PlayerInfo → PlayerInfo)
    (hne : k ≠ peer) : (players.update peer f).find k = players.find k := by
  induction players with
  | nil => rfl
  | cons e rest ih =>
      obtain ⟨k1, v⟩ := e
      by_cases hk : k1 = peer
      · have hk2 : ¬ peer = k := fun h => hne h.symm
        simp [update, find, hk, hk2, ih]
      · by_cases hkk : k1 = k
        · subst hkk
          simp [update, find, hne]
        · simp [update, find, hk, hkk, ih]

theorem index_of_mem {players : Registry} {peer : Handle} (f : PlayerInfo → PlayerInfo)
    (h : peer ∈ players.handles) : players.index peer f = players.update peer f := by
  simp [index, (contains_eq_true_iff players peer).mpr h]

theorem index_of_not_mem {players : Registry} {peer : Handle} (f : PlayerInfo → PlayerInfo)
    (h : peer ∉ players.handles) :
    players.index peer f = (peer, f PlayerInfo.zero) :: players := by
  simp [index, (contains_eq_false_iff players peer).mpr h]

theorem find_index_other (players : Registry) (peer k : Handle) (f : PlayerInfo → PlayerInfo)
    (hne : k ≠ peer) : (players.index peer f).find k = players.find k := by
  by_cases h : peer ∈ players.handles
  · rw [index_of_mem f h]
    exact find_update_other players peer k f hne
  · rw [index_of_not_mem f h]
    have hk2 : ¬ peer = k := fun h => hne h.symm
    simp [find, hk2]

theorem handles_erase (players : Registry) (peer : Handle) :
    (players.erase peer).handles = players.handles.filter (fun k => decide (k ≠ peer)) := by
  unfold erase handles
  rw [List.filter_map]
  rfl

theorem not_mem_handles_erase (players : Registry) (peer : Handle) :
    peer ∉ (players.erase peer).handles := by
  rw [handles_erase]
  simp

theorem erase_of_not_mem {players : Registry} {peer : Handle}
    (h : peer ∉ players.handles) : players.erase peer = players := by
  induction players with
  | nil => rfl
  | cons e rest ih =>
      simp only [handles, List.map_cons, List.mem_cons, not_or] at h
      have hk : ¬ e.1 = peer := fun h1 => h.1 h1.symm
      simp only [erase, List.filter_cons, ne_eq, hk, not_false_eq_true, decide_True, if_true]
      congr 1
      exact ih h.2

end Registry

/-! ## Facts about the wire layout -/

theorem F32.ofBytes_toBytes_bits (v : F32) :
    F32.ofBytes (Fin.ofNat (v.bits.val % 256)) (Fin.ofNat (v.bits.val / 256 % 256))
      (Fin.ofNat (v.bits.val / 65536 % 256)) (Fin.ofNat (v.bits.val / 16777216 % 256)) = v := by
  obtain ⟨⟨n, hn⟩⟩ := v
  simp only [F32.ofBytes, Fin.ofNat, F32.mk.injEq, Fin.mk.injEq]
  omega

/-- The payload of a delta is 8 bytes long. -/
theorem EVec.length_toBytes (v : EVec) : v.toBytes.length = 8 := rfl

/-- Reading an `EVec` from a packet that starts with the 8 bytes of `d` gives
`d`, whatever follows in the packet or after it. -/
theorem readEVec_toBytes (d : EVec) (extra : List Byte) (past : Nat → Byte) :
    readEVec (d.toBytes ++ extra) past = d := by
  obtain ⟨x, y⟩ := d
  simp only [readEVec, peek, EVec.toBytes, F32.toBytes, List.cons_append, List.nil_append,
    List.length_cons, List.get]
  simp only [Nat.zero_lt_succ, Nat.succ_lt_succ_iff, dite_true, List.get, Nat.lt_add_left_iff_pos,
    F32.ofBytes_toBytes_bits]

/-- Reading a `PlayerColor` from a packet that starts with the 4 bytes of `c`
gives `c`. -/
theorem readColor_toBytes (c : PlayerColor) (extra : List Byte) (past : Nat → Byte) :
    readColor (c.toBytes ++ extra) past = c := by
  obtain ⟨r, g, b, a⟩ := c
  simp [readColor, peek, PlayerColor.toBytes]

theorem F32.toBytes_ofBytes (b0 b1 b2 b3 : Byte) :
    (F32.ofBytes b0 b1 b2 b3).toBytes = [b0, b1, b2, b3] := by
  obtain ⟨n0, h0⟩ := b0
  obtain ⟨n1, h1⟩ := b1
  obtain ⟨n2, h2⟩ := b2
  obtain ⟨n3, h3⟩ := b3
  simp only [F32.toBytes, F32.ofBytes, Fin.ofNat, List.cons.injEq, Fin.mk.injEq, and_true]
  omega

/-- Every 8-byte payload is the object representation of the `EVec` that the
server reads from it. -/
theorem toBytes_readEVec (data : List Byte) (past : Nat → Byte) (hlen : data.length = 8) :
    (readEVec data past).toBytes = data := by
  match data, hlen with
  | [b0, b1, b2, b3, b4, b5, b6, b7], _ =>
      have hx : readEVec [b0, b1, b2, b3, b4, b5, b6, b7] past =
          ⟨F32.ofBytes b0 b1 b2 b3, F32.ofBytes b4 b5 b6 b7⟩ := rfl
      rw [hx]
      simp [EVec.toBytes, F32.toBytes_ofBytes]

/-! ## Facts about one event -/

/-- A connect event for a handle that is not in the map puts a new entry. -/
theorem processEvent_connect_of_not_mem {players : Registry} {h : Handle}
    (habs : h ∉ players.handles) :
    processEvent players (.connect h) = (h, PlayerInfo.spawn) :: players := by
  simp only [processEvent]
  exact Registry.index_of_not_mem _ habs

/-- A receive event from a handle that is in the map takes the movement
branch (`main.cpp:46-52`). -/
theorem processEvent_receive_of_mem {players : Registry} {h : Handle}
    (data : List Byte) (past : Nat → Byte) (hmem : h ∈ players.handles) :
    processEvent players (.receive h data past) =
      players.update h (fun info =>
        { info with position := ⟨info.position.x + (readEVec data past).x,
                                 info.position.y + (readEVec data past).y⟩ }) := by
  have hc : players.contains h = true := (Registry.contains_eq_true_iff players h).mpr hmem
  simp only [processEvent, hc, Bool.true_eq_false, if_false]
  exact Registry.index_of_mem _ hmem

/-- A receive event from a handle that is not in the map takes the color
branch (`main.cpp:40-45`): `players[peer]` inserts a zero entry, whose color is
then written. -/
theorem processEvent_receive_of_not_mem {players : Registry} {h : Handle}
    (data : List Byte) (past : Nat → Byte) (habs : h ∉ players.handles) :
    processEvent players (.receive h data past) =
      (h, { PlayerInfo.zero with color := readColor data past }) :: players := by
  have hc : players.contains h = false := (Registry.contains_eq_false_iff players h).mpr habs
  simp only [processEvent, hc, if_true]
  exact Registry.index_of_not_mem _ habs

/-- What a receive event does to the session of a registered handle, for any
payload. -/
theorem find_receive_of_find {players : Registry} {h : Handle} {info : PlayerInfo}
    (data : List Byte) (past : Nat → Byte) (hfind : players.find h = some info) :
    (processEvent players (.receive h data past)).find h =
      some ⟨⟨info.position.x + (readEVec data past).x,
             info.position.y + (readEVec data past).y⟩, info.color⟩ := by
  rw [processEvent_receive_of_mem data past (Registry.mem_handles_of_find hfind),
    Registry.find_update_same, hfind]
  rfl

theorem handles_receive_of_mem {players : Registry} {h : Handle}
    (data : List Byte) (past : Nat → Byte) (hmem : h ∈ players.handles) :
    (processEvent players (.receive h data past)).handles = players.handles := by
  rw [processEvent_receive_of_mem data past hmem, Registry.handles_update]

theorem find_receive_other (players : Registry) (h k : Handle)
    (data : List Byte) (past : Nat → Byte) (hne : k ≠ h) :
    (processEvent players (.receive h data past)).find k = players.find k := by
  simp only [processEvent]
  split <;> exact Registry.find_index_other players h k _ hne

set_option maxRecDepth 8192 in
/-- The float sums of the examples: 960 + 1 + 0 - 1 = 960, 540 + 0 + 1 - 1 =
540, and 960 plus the float whose bytes are 10, 20, 30, 255. -/
theorem F32.example_sums :
    F32.ofInt 960 + F32.ofInt 1 + F32.ofInt 0 + F32.ofInt (-1) = F32.ofInt 960 ∧
    F32.ofInt 540 + F32.ofInt 0 + F32.ofInt 1 + F32.ofInt (-1) = F32.ofInt 540 ∧
    F32.ofInt 960 + F32.ofBytes 10 20 30 255 = ⟨0xFF1E140A⟩ ∧
    F32.ofInt 960 + F32.ofInt 1 = F32.ofInt 961 ∧
    F32.ofInt 540 + F32.ofInt 0 = F32.ofInt 540 := by
  refine ⟨?_, ?_, ?_, ?_, ?_⟩ <;> decide

set_option maxRecDepth 8192 in
/-- The floats of the example payloads: the bytes 0, 0, 128, 63 are 1.0f, four
zero bytes are 0.0f, and 961 is not 960. -/
theorem F32.example_bytes :
    F32.ofBytes 0 0 128 63 = F32.ofInt 1 ∧
    F32.ofBytes 0 0 0 0 = F32.ofInt 0 ∧
    F32.ofInt 961 ≠ F32.ofInt 960 := by
  refine ⟨?_, ?_, ?_⟩ <;> decide

/-! ## Facts about event sequences -/

theorem drain_nil (players : Registry) : drain players [] = players := rfl

theorem drain_cons (players : Registry) (e : Event) (es : List Event) :
    drain players (e :: es) = drain (processEvent players e) es := rfl

theorem drain_append (players : Registry) (es fs : List Event) :
    drain players (es ++ fs) = drain (drain players es) fs := by
  simp [drain, List.foldl_append]

/-- The keys of the map stay pairwise distinct under every event. -/
theorem nodup_processEvent (players : Registry) (e : Event)
    (hnd : players.handles.Nodup) : (processEvent players e).handles.Nodup := by
  have hindex : ∀ (peer : Handle) (f : PlayerInfo → PlayerInfo),
      (players.index peer f).handles.Nodup := by
    intro peer f
    by_cases hmem : peer ∈ players.handles
    · rw [Registry.index_of_mem f hmem, Registry.handles_update]
      exact hnd
    · rw [Registry.index_of_not_mem f hmem]
      exact List.nodup_cons.mpr ⟨hmem, hnd⟩
  cases e with
  | connect peer => exact hindex peer _
  | receive peer data past =>
      simp only [processEvent]
      split <;> exact hindex peer _
  | disconnect peer =>
      simp only [processEvent]
      rw [Registry.handles_erase]
      exact hnd.filter _

/-- Every map the loop can reach from the empty one has pairwise distinct
keys. -/
theorem nodup_drain (events : List Event) :
    ∀ players : Registry, players.handles.Nodup → (drain players events).handles.Nodup := by
  induction events with
  | nil => intro players hnd; exact hnd
  | cons e rest ih =>
      intro players hnd
      rw [drain_cons]
      exact ih _ (nodup_processEvent players e hnd)

/-- Connect events for distinct handles that are all new add one entry each. -/
theorem length_drain_connects (hs : List Handle) :
    ∀ players : Registry, hs.Nodup → (∀ h ∈ hs, h ∉ players.handles) →
      (drain players (hs.map Event.connect)).length = players.length + hs.length := by
  induction hs with
  | nil => intro players _ _; rfl
  | cons h rest ih =>
      intro players hnd hnew
      rw [List.map_cons, drain_cons,
        processEvent_connect_of_not_mem (hnew h (List.mem_cons_self h rest))]
      rw [List.nodup_cons] at hnd
      rw [ih _ hnd.2]
      · simp only [List.length_cons]
        omega
      · intro k hk
        simp only [Registry.handles, List.map_cons, List.mem_cons, not_or]
        refine ⟨fun hkh => hnd.1 (hkh ▸ hk), ?_⟩
        exact hnew k (List.mem_cons_of_mem h hk)

/-- After a connect, the next payload of the same handle goes through the
movement branch: the position moves by what `(EVec*)data` reads and the color
stays zero. -/
theorem find_connect_receive (players : Registry) (h : Handle)
    (data : List Byte) (past : Nat → Byte) (habs : h ∉ players.handles) :
    (drain players [.connect h, .receive h data past]).find h =
      some ⟨⟨F32.ofInt 960 + (readEVec data past).x, F32.ofInt 540 + (readEVec data past).y⟩,
            ⟨0, 0, 0, 0⟩⟩ := by
  rw [drain_cons, processEvent_connect_of_not_mem habs, drain_cons]
  have hf : Registry.find ((h, PlayerInfo.spawn) :: players) h = some PlayerInfo.spawn := by
    simp [Registry.find]
  rw [drain_nil, find_receive_of_find data past hf]
  rfl

/-- A receive event whose payload starts with the 8 bytes of `d`, from a
registered handle: the position moves by `d`, the color stays. -/
theorem find_receive_toBytes {players : Registry} {h : Handle} {info : PlayerInfo}
    (d : EVec) (extra : List Byte) (past : Nat → Byte) (hfind : players.find h = some info) :
    (processEvent players (.receive h (d.toBytes ++ extra) past)).find h =
      some ⟨⟨info.position.x + d.x, info.position.y + d.y⟩, info.color⟩ := by
  rw [find_receive_of_find _ past hfind, readEVec_toBytes]

/-- A run of delta payloads from a registered handle adds the deltas to its
position from left to right. -/
theorem find_drain_deltas (h : Handle) (ds : List (EVec × (Nat → Byte))) :
    ∀ (players : Registry) (info : PlayerInfo), players.find h = some info →
      (drain players (ds.map (fun d => Event.receive h d.1.toBytes d.2))).find h =
        some ⟨ds.foldl (fun p d => ⟨p.x + d.1.x, p.y + d.1.y⟩) info.position, info.color⟩ := by
  induction ds with
  | nil => intro players info hfind; exact hfind
  | cons d rest ih =>
      intro players info hfind
      rw [List.map_cons, drain_cons]
      have hstep := find_receive_toBytes d.1 [] d.2 hfind
      rw [List.append_nil] at hstep
      rw [ih _ _ hstep]
      rfl

/-! ## Facts about the broadcast -/

theorem peers_broadcast (players : Registry) :
    (broadcast players).2.map Send.peer = players.handles := by
  simp [broadcast, Registry.handles, List.map_map, Function.comp_def]

theorem mem_playerData_of_find {players : Registry} {h : Handle} {info : PlayerInfo}
    (hfind : players.find h = some info) :
    (info.position, info.color) ∈ playerData players := by
  induction players with
  | nil => cases hfind
  | cons e rest ih =>
      obtain ⟨k, v⟩ := e
      by_cases hk : k = h
      · simp only [Registry.find, hk, if_true, Option.some.injEq] at hfind
        subst hfind
        simp [playerData]
      · simp only [Registry.find, hk, if_false] at hfind
        have := ih hfind
        simp only [playerData, List.map_cons, List.mem_cons] at this ⊢
        exact Or.inr this

theorem length_encodeEntry (e : EVec × PlayerColor) : (encodeEntry e).length = 12 := rfl

theorem length_encodeRoster (snap : List (EVec × PlayerColor)) :
    (encodeRoster snap).length = 12 * snap.length := by
  induction snap with
  | nil => rfl
  | cons e rest ih =>
      simp only [encodeRoster, List.length_append, length_encodeEntry, ih, List.length_cons]
      omega

theorem decodeRoster_encodeEntry_append (e : EVec × PlayerColor) (rest : List Byte) :
    decodeRoster (encodeEntry e ++ rest) = (decodeRoster rest).map (fun l => e :: l) := by
  obtain ⟨⟨x, y⟩, ⟨r, g, b, a⟩⟩ := e
  simp only [encodeEntry, EVec.toBytes, F32.toBytes, PlayerColor.toBytes, List.cons_append,
    List.nil_append, decodeRoster, F32.ofBytes_toBytes_bits]
  rfl

theorem decodeRoster_encodeRoster (snap : List (EVec × PlayerColor)) :
    decodeRoster (encodeRoster snap) = some snap := by
  induction snap with
  | nil => rfl
  | cons e rest ih =>
      simp only [encodeRoster, decodeRoster_encodeEntry_append, ih, Option.map_some']

/-! ## Facts about colors along a run -/

theorem Registry.colors_update {players : Registry} {z : PlayerColor} (h : Handle)
    (f : PlayerInfo → PlayerInfo) (hf : ∀ i, (f i).color = i.color)
    (hz : ∀ e ∈ players, e.2.color = z) :
    ∀ e ∈ players.update h f, e.2.color = z := by
  induction players with
  | nil => intro e he; cases he
  | cons e0 rest ih =>
      obtain ⟨k, v⟩ := e0
      have hv : v.color = z := hz (k, v) (List.mem_cons_self _ _)
      have hrest : ∀ e ∈ rest, e.2.color = z := fun e he => hz e (List.mem_cons_of_mem _ he)
      intro e he
      by_cases hk : k = h
      · simp only [Registry.update, hk, if_true, List.mem_cons] at he
        rcases he with he | he
        · rw [he]
          exact (hf v).trans hv
        · exact ih hrest e he
      · simp only [Registry.update, hk, if_false, List.mem_cons] at he
        rcases he with he | he
        · rw [he]
          exact hv
        · exact ih hrest e he

theorem Registry.colors_index {players : Registry} {z : PlayerColor} (h : Handle)
    (f : PlayerInfo → PlayerInfo) (hf : ∀ i, i.color = z → (f i).color = z)
    (hzero : PlayerInfo.zero.color = z) (hz : ∀ e ∈ players, e.2.color = z) :
    ∀ e ∈ players.index h f, e.2.color = z := by
  by_cases hmem : h ∈ players.handles
  · rw [Registry.index_of_mem f hmem]
    intro e he
    induction players with
    | nil => cases he
    | cons e0 rest ih =>
        obtain ⟨k, v⟩ := e0
        have hv : v.color = z := hz (k, v) (List.mem_cons_self _ _)
        have hrest : ∀ e ∈ rest, e.2.color = z := fun e he => hz e (List.mem_cons_of_mem _ he)
        by_cases hk : k = h
        · simp only [Registry.update, hk, if_true, List.mem_cons] at he
          rcases he with he | he
          · rw [he]
            exact hf v hv
          · by_cases hm2 : h ∈ Registry.handles rest
            · exact ih hrest hm2 he
            · have hsame : Registry.update rest h f = rest := by
                clear ih he hrest hz hmem
                induction rest with
                | nil => rfl
                | cons e1 rest1 ih1 =>
                    obtain ⟨k1, v1⟩ := e1
                    simp only [Registry.handles, List.map_cons, List.mem_cons, not_or] at hm2
                    have hk1 : ¬ k1 = h := fun e => hm2.1 e.symm
                    simp only [Registry.update, hk1, if_false]
                    rw [ih1 hm2.2]
              rw [hsame] at he
              exact hrest e he
        · simp only [Registry.update, hk, if_false, List.mem_cons] at he
          rcases he with he | he
          · rw [he]
            exact hv
          · have hm2 : h ∈ Registry.handles rest := by
              simp only [Registry.handles, List.map_cons, List.mem_cons] at hmem
              rcases hmem with hmem | hmem
              · exact absurd hmem.symm hk
              · exact hmem
            exact ih hrest hm2 he
  · rw [Registry.index_of_not_mem f hmem]
    intro e he
    simp only [List.mem_cons] at he
    rcases he with he | he
    · rw [he]
      exact hf _ hzero
    · exact hz e he

theorem Registry.mem_handles_index (players : Registry) (h k : Handle)
    (f : PlayerInfo → PlayerInfo) (hk : k = h ∨ k ∈ players.handles) :
    k ∈ (players.index h f).handles := by
  by_cases hmem : h ∈ players.handles
  · rw [Registry.index_of_mem f hmem, Registry.handles_update]
    rcases hk with hk | hk
    · rw [hk]
      exact hmem
    · exact hk
  · rw [Registry.index_of_not_mem f hmem]
    simp only [Registry.handles, List.map_cons, List.mem_cons]
    rcases hk with hk | hk
    · exact Or.inl hk
    · exact Or.inr hk

/-- Along a run in which payloads only come from connected handles, every
prefix of the run leaves nothing but zero colors in the map. -/
theorem colors_drain_wellSequenced (pre post : List Event) :
    ∀ (players : Registry) (connected : List Handle),
      (∀ e ∈ players, e.2.color = ⟨0, 0, 0, 0⟩) →
      (∀ h ∈ connected, h ∈ players.handles) →
      wellSequenced connected (pre ++ post) = true →
      ∀ e ∈ drain players pre, e.2.color = ⟨0, 0, 0, 0⟩ := by
  induction pre with
  | nil => intro players connected hz _ _; exact hz
  | cons ev rest ih =>
      intro players connected hz hconn hws
      rw [drain_cons]
      cases ev with
      | connect h =>
          simp only [List.cons_append, wellSequenced] at hws
          refine ih (processEvent players (.connect h)) (h :: connected) ?_ ?_ hws
          · exact Registry.colors_index h _ (fun _ _ => rfl) rfl hz
          · intro k hk
            simp only [List.mem_cons] at hk
            refine Registry.mem_handles_index players h k _ ?_
            rcases hk with hk | hk
            · exact Or.inl hk
            · exact Or.inr (hconn k hk)
      | receive h data past =>
          simp only [List.cons_append, wellSequenced, Bool.and_eq_true, decide_eq_true_eq] at hws
          have hmem := hconn h hws.1
          refine ih (processEvent players (.receive h data past)) connected ?_ ?_ hws.2
          · rw [processEvent_receive_of_mem data past hmem]
            exact Registry.colors_update h _ (fun _ => rfl) hz
          · intro k hk
            rw [handles_receive_of_mem data past hmem]
            exact hconn k hk
      | disconnect h =>
          simp only [List.cons_append, wellSequenced] at hws
          refine ih (processEvent players (.disconnect h)) _ ?_ ?_ hws
          · intro e he
            simp only [processEvent, Registry.erase, List.mem_filter] at he
            exact hz e he.1
          · intro k hk
            simp only [List.mem_filter] at hk
            simp only [processEvent]
            rw [Registry.handles_erase]
            exact List.mem_filter.mpr ⟨hconn k hk.1, hk.2⟩

/-! ## Facts about float comparison -/

theorem F32.lt_false_of_le_false (a b : F32) (h : F32.le a b = false) : F32.lt a b = false := by
  cases hlt : F32.lt a b with
  | false => rfl
  | true =>
      simp only [F32.lt, Bool.and_eq_true, Bool.not_eq_true', decide_eq_true_eq] at hlt
      have : F32.le a b = true := by
        simp only [F32.le, Bool.and_eq_true, Bool.not_eq_true', decide_eq_true_eq]
        exact ⟨hlt.1, Int.le_of_lt hlt.2⟩
      rw [this] at h
      cases h

theorem F32.lt_zero_zero : F32.lt (F32.ofInt 0) (F32.ofInt 0) = false := by decide

set_option maxRecDepth 8192 in
/-- Two calls of `takeDamage`: health 1 and damage 3 kill the player and leave
health 0; health 5 and damage 3 leave health 2. -/
theorem takeDamage_examples :
    ((PlayerEntity.takeDamage ⟨"a", ⟨1, 2, 3, 255⟩, ⟨⟨0⟩, ⟨0⟩⟩, F32.ofInt 1, ⟨[], 9, 3⟩⟩
        (F32.ofInt 3)).1 = true ∧
     (PlayerEntity.takeDamage ⟨"a", ⟨1, 2, 3, 255⟩, ⟨⟨0⟩, ⟨0⟩⟩, F32.ofInt 1, ⟨[], 9, 3⟩⟩
        (F32.ofInt 3)).2.health = F32.ofInt 0) ∧
    ((PlayerEntity.takeDamage ⟨"a", ⟨1, 2, 3, 255⟩, ⟨⟨0⟩, ⟨0⟩⟩, F32.ofInt 5, ⟨[], 9, 3⟩⟩
        (F32.ofInt 3)).1 = false ∧
     (PlayerEntity.takeDamage ⟨"a", ⟨1, 2, 3, 255⟩, ⟨⟨0⟩, ⟨0⟩⟩, F32.ofInt 5, ⟨[], 9, 3⟩⟩
        (F32.ofInt 3)).2.health = F32.ofInt 2) := by
  refine ⟨⟨?_, ?_⟩, ⟨?_, ?_⟩⟩ <;> decide

/-! ## The claims -/

/-- C1 (the code at the failing input): from the empty map, `connect(1)` and
then the 4-byte payload `[10,20,30,255]` as the first payload of handle 1 leave
the color of the session at (0,0,0,0); the four bytes are read as the float
`dx` and added to the spawn x (960 + 0xFF1E140A, about -2.1e38), and the four
bytes that follow the packet in memory are read as `dy`. -/
theorem C1_first_payload_read_as_delta :
    ∀ past : Nat → Byte,
      (drain [] [.connect 1, .receive 1 [10, 20, 30, 255] past]).find 1 =
        some ⟨⟨⟨0xFF1E140A⟩, F32.ofInt 540 + F32.ofBytes (past 0) (past 1) (past 2) (past 3)⟩,
              ⟨0, 0, 0, 0⟩⟩ := by
  intro past
  rw [find_connect_receive [] 1 _ past (by simp [Registry.handles])]
  have hx : (readEVec [10, 20, 30, 255] past).x = F32.ofBytes 10 20 30 255 := rfl
  have hy : (readEVec [10, 20, 30, 255] past).y =
      F32.ofBytes (past 0) (past 1) (past 2) (past 3) := rfl
  rw [hx, hy, F32.example_sums.2.2.1]

/-- C2: a receive event from a registered handle `h` whose payload is the 8
bytes of the floats `(dx, dy)` turns the session `(x, y, color)` of `h` into
`(x + dx, y + dy, color)` (float addition, no clamping), keeps the handles of
the map as they are and leaves the session of every other handle unchanged. -/
theorem C2_receive_delta (players : Registry) (h : Handle) (info : PlayerInfo)
    (d : EVec) (past : Nat → Byte) (hfind : players.find h = some info) :
    (processEvent players (.receive h d.toBytes past)).find h =
        some ⟨⟨info.position.x + d.x, info.position.y + d.y⟩, info.color⟩ ∧
    (processEvent players (.receive h d.toBytes past)).handles = players.handles ∧
    ∀ k, k ≠ h →
      (processEvent players (.receive h d.toBytes past)).find k = players.find k := by
  refine ⟨?_, ?_, ?_⟩
  · have hstep := find_receive_toBytes d [] past hfind
    rw [List.append_nil] at hstep
    exact hstep
  · exact handles_receive_of_mem _ past (Registry.mem_handles_of_find hfind)
  · intro k hk
    exact find_receive_other players h k _ past hk

/-- C2 at a concrete input: handle 7 at the spawn position receives the
delta (5, -3). -/
theorem C2_receive_delta_witness :
    Registry.find [(7, PlayerInfo.spawn), (8, PlayerInfo.zero)] 7 = some PlayerInfo.spawn ∧
    ((processEvent [(7, PlayerInfo.spawn), (8, PlayerInfo.zero)]
        (.receive 7 (EVec.toBytes ⟨F32.ofInt 5, F32.ofInt (-3)⟩) (fun _ => 0))).find 7 =
        some ⟨⟨PlayerInfo.spawn.position.x + F32.ofInt 5,
               PlayerInfo.spawn.position.y + F32.ofInt (-3)⟩, PlayerInfo.spawn.color⟩ ∧
     (processEvent [(7, PlayerInfo.spawn), (8, PlayerInfo.zero)]
        (.receive 7 (EVec.toBytes ⟨F32.ofInt 5, F32.ofInt (-3)⟩) (fun _ => 0))).handles =
        Registry.handles [(7, PlayerInfo.spawn), (8, PlayerInfo.zero)] ∧
     ∀ k, k ≠ 7 →
      (processEvent [(7, PlayerInfo.spawn), (8, PlayerInfo.zero)]
        (.receive 7 (EVec.toBytes ⟨F32.ofInt 5, F32.ofInt (-3)⟩) (fun _ => 0))).find k =
        Registry.find [(7, PlayerInfo.spawn), (8, PlayerInfo.zero)] k) :=
  ⟨rfl, C2_receive_delta [(7, PlayerInfo.spawn), (8, PlayerInfo.zero)] 7 PlayerInfo.spawn
    ⟨F32.ofInt 5, F32.ofInt (-3)⟩ (fun _ => 0) rfl⟩

/-- C3: a connect event for a handle `h` that is not in the map yields a map
in which `h` has position (960, 540) and color (0,0,0,0), and in which the
session of every other handle is what it was. -/
theorem C3_connect_new_handle (players : Registry) (h : Handle)
    (habs : h ∉ players.handles) :
    (processEvent players (.connect h)).find h =
        some ⟨⟨F32.ofInt 960, F32.ofInt 540⟩, ⟨0, 0, 0, 0⟩⟩ ∧
    ∀ k, k ≠ h → (processEvent players (.connect h)).find k = players.find k := by
  rw [processEvent_connect_of_not_mem habs]
  refine ⟨?_, ?_⟩
  · simp [Registry.find, PlayerInfo.spawn]
  · intro k hk
    have hk2 : ¬ h = k := fun e => hk e.symm
    simp [Registry.find, hk2]

/-- C3 at a concrete input: handle 2 connects while handle 1 is registered. -/
theorem C3_connect_new_handle_witness :
    2 ∉ Registry.handles [(1, PlayerInfo.zero)] ∧
    ((processEvent [(1, PlayerInfo.zero)] (.connect 2)).find 2 =
        some ⟨⟨F32.ofInt 960, F32.ofInt 540⟩, ⟨0, 0, 0, 0⟩⟩ ∧
     ∀ k, k ≠ 2 →
      (processEvent [(1, PlayerInfo.zero)] (.connect 2)).find k =
        Registry.find [(1, PlayerInfo.zero)] k) :=
  ⟨by decide, C3_connect_new_handle [(1, PlayerInfo.zero)] 2 (by decide)⟩

/-- C4: N connect events for pairwise distinct handles, processed from the
empty map with no disconnect in between, leave exactly N sessions. -/
theorem C4_size_after_connects (hs : List Handle) (hnd : hs.Nodup) :
    (drain [] (hs.map Event.connect)).length = hs.length := by
  have h := length_drain_connects hs [] hnd (fun _ _ => by simp [Registry.handles])
  simpa using h

/-- C4 at a concrete input: three connects give three sessions. -/
theorem C4_size_after_connects_witness :
    [4, 9, 2].Nodup ∧ (drain [] ([4, 9, 2].map Event.connect)).length = [4, 9, 2].length :=
  ⟨by decide, C4_size_after_connects [4, 9, 2] (by decide)⟩

/-- C5: whatever the starting map and whatever payloads `h` sends between its
connect and its disconnect, `h` is not in the map once the disconnect has been
processed; and a disconnect for a handle that is not in the map leaves the map
as it is. -/
theorem C5_disconnect_removes (players : Registry) (h : Handle)
    (payloads : List (List Byte × (Nat → Byte))) :
    (drain players (Event.connect h ::
        (payloads.map (fun p => Event.receive h p.1 p.2) ++ [Event.disconnect h]))).contains h
      = false ∧
    (h ∉ players.handles → processEvent players (.disconnect h) = players) := by
  refine ⟨?_, ?_⟩
  · rw [drain_cons, drain_append, Registry.contains_eq_false_iff]
    exact Registry.not_mem_handles_erase _ h
  · intro habs
    exact Registry.erase_of_not_mem habs

/-- C5 at a concrete input: handle 1 connects next to handle 2, sends a
4-byte and an 8-byte payload and disconnects. -/
theorem C5_disconnect_removes_witness :
    1 ∉ Registry.handles [(2, PlayerInfo.spawn)] ∧
    (drain [(2, PlayerInfo.spawn)] (Event.connect 1 ::
        (([([10, 20, 30, 255], fun _ => 0), ([0, 0, 128, 63, 0, 0, 0, 0], fun _ => 0)] :
            List (List Byte × (Nat → Byte))).map
          (fun p => Event.receive 1 p.1 p.2) ++ [Event.disconnect 1]))).contains 1 = false ∧
    processEvent [(2, PlayerInfo.spawn)] (.disconnect 1) = [(2, PlayerInfo.spawn)] :=
  ⟨by decide,
   (C5_disconnect_removes [(2, PlayerInfo.spawn)] 1
      [([10, 20, 30, 255], fun _ => 0), ([0, 0, 128, 63, 0, 0, 0, 0], fun _ => 0)]).1,
   (C5_disconnect_removes [(2, PlayerInfo.spawn)] 1
      [([10, 20, 30, 255], fun _ => 0), ([0, 0, 128, 63, 0, 0, 0, 0], fun _ => 0)]).2
      (by decide)⟩

/-- C6: for a map of N sessions the broadcast step sends one packet to each
registered handle and none to any other peer (N packets in all); every packet
carries the same frame, the encoding of the roster `playerData`, which has N
entries, the i-th being the (position, color) of the i-th session in iteration
order, so that the entry of the recipient is in it too; the map itself is left
as it was. -/
theorem C6_broadcast_fan_out (players : Registry) (hnd : players.handles.Nodup) :
    (broadcast players).1 = players ∧
    (broadcast players).2.length = players.length ∧
    (∀ h, ((broadcast players).2.map Send.peer).count h =
        if h ∈ players.handles then 1 else 0) ∧
    (∀ s ∈ (broadcast players).2, s.payload = encodeRoster (playerData players)) ∧
    (playerData players).length = players.length ∧
    (∀ (i : Nat) (hi : i < players.length),
        (playerData players)[i]? =
          some ((players.get ⟨i, hi⟩).2.position, (players.get ⟨i, hi⟩).2.color)) ∧
    (∀ h info, players.find h = some info →
        (info.position, info.color) ∈ playerData players) := by
  refine ⟨rfl, ?_, ?_, ?_, ?_, ?_, ?_⟩
  · simp [broadcast]
  · intro h
    rw [peers_broadcast]
    exact List.count_eq_of_nodup hnd
  · intro s hs
    simp only [broadcast, List.mem_map] at hs
    obtain ⟨e, _, he⟩ := hs
    rw [← he]
  · simp [playerData]
  · intro i hi
    simp [playerData, List.getElem?_eq_getElem hi]
  · intro h info hfind
    exact mem_playerData_of_find hfind

/-- C6 at a concrete input: with the sessions A = 1 and B = 2 registered, a
2-entry roster goes to both A and B. -/
theorem C6_broadcast_fan_out_witness :
    (Registry.handles [(1, PlayerInfo.spawn), (2, PlayerInfo.zero)]).Nodup ∧
    (broadcast [(1, PlayerInfo.spawn), (2, PlayerInfo.zero)]).2 =
      [⟨1, encodeRoster [(PlayerInfo.spawn.position, PlayerInfo.spawn.color),
                          (PlayerInfo.zero.position, PlayerInfo.zero.color)]⟩,
       ⟨2, encodeRoster [(PlayerInfo.spawn.position, PlayerInfo.spawn.color),
                          (PlayerInfo.zero.position, PlayerInfo.zero.color)]⟩] ∧
    (playerData [(1, PlayerInfo.spawn), (2, PlayerInfo.zero)]).length = 2 ∧
    (broadcast [(1, PlayerInfo.spawn), (2, PlayerInfo.zero)]).1 =
      [(1, PlayerInfo.spawn), (2, PlayerInfo.zero)] :=
  ⟨by decide, rfl,
   (C6_broadcast_fan_out [(1, PlayerInfo.spawn), (2, PlayerInfo.zero)] (by decide)).2.2.2.2.1,
   (C6_broadcast_fan_out [(1, PlayerInfo.spawn), (2, PlayerInfo.zero)] (by decide)).1⟩

/-- C7: the frame encoded from a snapshot of K sessions is 12 * K bytes long,
and decoding it by the stated layout (x, y as 32-bit floats, then r, g, b, a)
gives back the K entries of the snapshot, bit for bit and in order. -/
theorem C7_roster_round_trip (snap : List (EVec × PlayerColor)) :
    (encodeRoster snap).length = 12 * snap.length ∧
    decodeRoster (encodeRoster snap) = some snap :=
  ⟨length_encodeRoster snap, decodeRoster_encodeRoster snap⟩

/-- C8: for a registered handle and any run of delta payloads received from
it, the final position is the starting position with the deltas added
component by component in the order received (float addition), the color
unchanged; and from (960, 540) the deltas (1,0), (0,1), (-1,-1) lead back to
exactly (960, 540). -/
theorem C8_delta_accumulation (players : Registry) (h : Handle) (info : PlayerInfo)
    (ds : List (EVec × (Nat → Byte))) (hfind : players.find h = some info) :
    (drain players (ds.map (fun d => Event.receive h d.1.toBytes d.2))).find h =
        some ⟨ds.foldl (fun p d => ⟨p.x + d.1.x, p.y + d.1.y⟩) info.position, info.color⟩ ∧
    (info.position = ⟨F32.ofInt 960, F32.ofInt 540⟩ →
      ∀ past : Nat → Byte,
        (drain players
          [.receive h (EVec.toBytes ⟨F32.ofInt 1, F32.ofInt 0⟩) past,
           .receive h (EVec.toBytes ⟨F32.ofInt 0, F32.ofInt 1⟩) past,
           .receive h (EVec.toBytes ⟨F32.ofInt (-1), F32.ofInt (-1)⟩) past]).find h =
          some ⟨⟨F32.ofInt 960, F32.ofInt 540⟩, info.color⟩) := by
  refine ⟨find_drain_deltas h ds players info hfind, ?_⟩
  intro hpos past
  have hrun := find_drain_deltas h
    [(⟨F32.ofInt 1, F32.ofInt 0⟩, past), (⟨F32.ofInt 0, F32.ofInt 1⟩, past),
     (⟨F32.ofInt (-1), F32.ofInt (-1)⟩, past)] players info hfind
  simp only [List.map_cons, List.map_nil, List.foldl_cons, List.foldl_nil, hpos] at hrun
  rw [F32.example_sums.1, F32.example_sums.2.1] at hrun
  exact hrun

/-- C8 at a concrete input: handle 3 at spawn receives (5, -3) and (1, 0). -/
theorem C8_delta_accumulation_witness :
    Registry.find [(3, PlayerInfo.spawn)] 3 = some PlayerInfo.spawn ∧
    PlayerInfo.spawn.position = ⟨F32.ofInt 960, F32.ofInt 540⟩ ∧
    (drain [(3, PlayerInfo.spawn)]
        (([(⟨F32.ofInt 5, F32.ofInt (-3)⟩, fun _ => 0), (⟨F32.ofInt 1, F32.ofInt 0⟩, fun _ => 7)] :
            List (EVec × (Nat → Byte))).map
          (fun d => Event.receive 3 d.1.toBytes d.2))).find 3 =
      some ⟨([(⟨F32.ofInt 5, F32.ofInt (-3)⟩, fun _ => 0), (⟨F32.ofInt 1, F32.ofInt 0⟩, fun _ => 7)] :
              List (EVec × (Nat → Byte))).foldl
              (fun p d => ⟨p.x + d.1.x, p.y + d.1.y⟩) PlayerInfo.spawn.position,
            PlayerInfo.spawn.color⟩ ∧
    (∀ past : Nat → Byte,
        (drain [(3, PlayerInfo.spawn)]
          [.receive 3 (EVec.toBytes ⟨F32.ofInt 1, F32.ofInt 0⟩) past,
           .receive 3 (EVec.toBytes ⟨F32.ofInt 0, F32.ofInt 1⟩) past,
           .receive 3 (EVec.toBytes ⟨F32.ofInt (-1), F32.ofInt (-1)⟩) past]).find 3 =
          some ⟨⟨F32.ofInt 960, F32.ofInt 540⟩, PlayerInfo.spawn.color⟩) :=
  ⟨rfl, rfl,
   (C8_delta_accumulation [(3, PlayerInfo.spawn)] 3 PlayerInfo.spawn
      [(⟨F32.ofInt 5, F32.ofInt (-3)⟩, fun _ => 0), (⟨F32.ofInt 1, F32.ofInt 0⟩, fun _ => 7)] rfl).1,
   (C8_delta_accumulation [(3, PlayerInfo.spawn)] 3 PlayerInfo.spawn
      [(⟨F32.ofInt 5, F32.ofInt (-3)⟩, fun _ => 0), (⟨F32.ofInt 1, F32.ofInt 0⟩, fun _ => 7)] rfl).2
      rfl⟩

/-- C9 (counterexample): the server does not drop a payload of the wrong
length. After `connect(2)`, a 9-byte payload (neither 4 nor 8 bytes) whose
first 8 bytes are the floats (1, 0) moves handle 2 from (960, 540) to
(961, 540), so the map is not what it was; and the 5-byte first payload
`[0,0,128,63,0]` changes the map too, whatever lies in memory after it. -/
theorem C9_wrong_length_not_dropped :
    (∀ past : Nat → Byte,
      drain [] [.connect 2, .receive 2 [0, 0, 128, 63, 0, 0, 0, 0, 7] past] =
        [(2, ⟨⟨F32.ofInt 961, F32.ofInt 540⟩, ⟨0, 0, 0, 0⟩⟩)]) ∧
    (∀ past : Nat → Byte,
      drain [] [.connect 2, .receive 2 [0, 0, 128, 63, 0, 0, 0, 0, 7] past] ≠
        drain [] [.connect 2]) ∧
    (∀ past : Nat → Byte,
      drain [] [.connect 2, .receive 2 [0, 0, 128, 63, 0] past] ≠ drain [] [.connect 2]) := by
  have hne : ∀ (data : List Byte) (past : Nat → Byte),
      (readEVec data past).x = F32.ofBytes 0 0 128 63 →
      drain [] [.connect 2, .receive 2 data past] ≠ drain [] [.connect 2] := by
    intro data past hx heq
    have hfind := find_connect_receive [] 2 data past (by simp [Registry.handles])
    rw [heq, hx, F32.example_bytes.1, F32.example_sums.2.2.2.1] at hfind
    have hx2 : F32.ofInt 960 = F32.ofInt 961 := by
      have h2 : (drain [] [Event.connect 2]).find 2 = some PlayerInfo.spawn := rfl
      rw [h2] at hfind
      have h3 := congrArg (fun o => o.map (fun i => i.position.x)) hfind
      simpa [PlayerInfo.spawn] using h3
    exact F32.example_bytes.2.2 hx2.symm
  refine ⟨?_, fun past => hne _ past rfl, fun past => hne _ past rfl⟩
  intro past
  have hmem : (2 : Handle) ∈ Registry.handles [(2, PlayerInfo.spawn)] := by
    simp [Registry.handles]
  rw [drain_cons, processEvent_connect_of_not_mem (by simp [Registry.handles]), drain_cons,
    drain_nil, processEvent_receive_of_mem _ past hmem]
  have hx : (readEVec [0, 0, 128, 63, 0, 0, 0, 0, 7] past).x = F32.ofBytes 0 0 128 63 := rfl
  have hy : (readEVec [0, 0, 128, 63, 0, 0, 0, 0, 7] past).y = F32.ofBytes 0 0 0 0 := rfl
  simp only [Registry.update, if_true, hx, hy, PlayerInfo.spawn, F32.example_bytes.1,
    F32.example_bytes.2.1, F32.example_sums.2.2.2.1, F32.example_sums.2.2.2.2]

/-- C9 (amended): a receive event from a registered handle, whatever the
length of its payload, keeps the handle registered and keeps the handles of
the map, the session of every other handle and the color of the handle itself;
the payload is not dropped: when it is taken as a movement delta and has 8
bytes or more, its first 8 bytes `(dx, dy)` are added to the position. -/
theorem C9_receive_any_length (players : Registry) (h : Handle) (info : PlayerInfo)
    (data : List Byte) (past : Nat → Byte) (hfind : players.find h = some info) :
    (processEvent players (.receive h data past)).contains h = true ∧
    (processEvent players (.receive h data past)).handles = players.handles ∧
    (∀ k, k ≠ h → (processEvent players (.receive h data past)).find k = players.find k) ∧
    (∃ pos, (processEvent players (.receive h data past)).find h = some ⟨pos, info.color⟩) ∧
    (∀ (d : EVec) (extra : List Byte), data = d.toBytes ++ extra →
      (processEvent players (.receive h data past)).find h =
        some ⟨⟨info.position.x + d.x, info.position.y + d.y⟩, info.color⟩) := by
  have hmem := Registry.mem_handles_of_find hfind
  have hh := handles_receive_of_mem data past hmem
  refine ⟨?_, hh, ?_, ⟨_, find_receive_of_find data past hfind⟩, ?_⟩
  · rw [Registry.contains_eq_true_iff, hh]
    exact hmem
  · intro k hk
    exact find_receive_other players h k data past hk
  · intro d extra hd
    rw [hd]
    exact find_receive_toBytes d extra past hfind

/-- C9 (amended) at a concrete input: handle 2 at spawn receives a 9-byte
payload, the floats (1, 0) and one byte more. -/
theorem C9_receive_any_length_witness :
    Registry.find [(2, PlayerInfo.spawn)] 2 = some PlayerInfo.spawn ∧
    (processEvent [(2, PlayerInfo.spawn)]
        (.receive 2 (EVec.toBytes ⟨F32.ofInt 1, F32.ofInt 0⟩ ++ [7]) (fun _ => 0))).contains 2
      = true ∧
    (processEvent [(2, PlayerInfo.spawn)]
        (.receive 2 (EVec.toBytes ⟨F32.ofInt 1, F32.ofInt 0⟩ ++ [7]) (fun _ => 0))).find 2 =
      some ⟨⟨PlayerInfo.spawn.position.x + F32.ofInt 1,
             PlayerInfo.spawn.position.y + F32.ofInt 0⟩, PlayerInfo.spawn.color⟩ :=
  ⟨rfl,
   (C9_receive_any_length [(2, PlayerInfo.spawn)] 2 PlayerInfo.spawn
      (EVec.toBytes ⟨F32.ofInt 1, F32.ofInt 0⟩ ++ [7]) (fun _ => 0) rfl).1,
   (C9_receive_any_length [(2, PlayerInfo.spawn)] 2 PlayerInfo.spawn
      (EVec.toBytes ⟨F32.ofInt 1, F32.ofInt 0⟩ ++ [7]) (fun _ => 0) rfl).2.2.2.2
      ⟨F32.ofInt 1, F32.ofInt 0⟩ [7] rfl⟩

/-- C10 (counterexample): a receive event from a handle that is not in the
map is not a no-op. From the empty map the payload `[10,20,30,255]` of handle
1 creates a session for it, at position (0, 0) with color (10,20,30,255). -/
theorem C10_receive_creates_session :
    (∀ past : Nat → Byte,
      processEvent [] (.receive 1 [10, 20, 30, 255] past) =
        [(1, ⟨⟨⟨0⟩, ⟨0⟩⟩, ⟨10, 20, 30, 255⟩⟩)]) ∧
    (∀ past : Nat → Byte, processEvent [] (.receive 1 [10, 20, 30, 255] past) ≠ []) :=
  ⟨fun _ => rfl, fun _ h => by cases h⟩

/-- C10 (amended): a receive event from a handle `h` that is not in the map
is not a no-op: it adds `h` to the map with a session at position (0, 0) whose
color, for a payload of 4 bytes or more, is the first four bytes r, g, b, a of
the payload; every session that existed is unchanged. -/
theorem C10_receive_unknown_handle (players : Registry) (h : Handle)
    (data : List Byte) (past : Nat → Byte) (habs : h ∉ players.handles) :
    (processEvent players (.receive h data past)).handles = h :: players.handles ∧
    (∃ c, (processEvent players (.receive h data past)).find h = some ⟨⟨⟨0⟩, ⟨0⟩⟩, c⟩) ∧
    (∀ k, k ≠ h → (processEvent players (.receive h data past)).find k = players.find k) ∧
    (∀ (c : PlayerColor) (extra : List Byte), data = c.toBytes ++ extra →
      (processEvent players (.receive h data past)).find h = some ⟨⟨⟨0⟩, ⟨0⟩⟩, c⟩) := by
  have hstep := processEvent_receive_of_not_mem data past habs
  have hfind : (processEvent players (.receive h data past)).find h =
      some ⟨⟨⟨0⟩, ⟨0⟩⟩, readColor data past⟩ := by
    rw [hstep]
    simp [Registry.find, PlayerInfo.zero]
  refine ⟨?_, ⟨_, hfind⟩, ?_, ?_⟩
  · rw [hstep]
    rfl
  · intro k hk
    exact find_receive_other players h k data past hk
  · intro c extra hc
    rw [hfind, hc, readColor_toBytes]

/-- C10 (amended) at a concrete input: handle 1, unknown to a map that holds
handle 2, sends the four bytes 10, 20, 30, 255. -/
theorem C10_receive_unknown_handle_witness :
    1 ∉ Registry.handles [(2, PlayerInfo.spawn)] ∧
    (processEvent [(2, PlayerInfo.spawn)]
        (.receive 1 (PlayerColor.toBytes ⟨10, 20, 30, 255⟩ ++ []) (fun _ => 0))).handles =
      1 :: Registry.handles [(2, PlayerInfo.spawn)] ∧
    (processEvent [(2, PlayerInfo.spawn)]
        (.receive 1 (PlayerColor.toBytes ⟨10, 20, 30, 255⟩ ++ []) (fun _ => 0))).find 1 =
      some ⟨⟨⟨0⟩, ⟨0⟩⟩, ⟨10, 20, 30, 255⟩⟩ :=
  ⟨by decide,
   (C10_receive_unknown_handle [(2, PlayerInfo.spawn)] 1
      (PlayerColor.toBytes ⟨10, 20, 30, 255⟩ ++ []) (fun _ => 0) (by decide)).1,
   (C10_receive_unknown_handle [(2, PlayerInfo.spawn)] 1
      (PlayerColor.toBytes ⟨10, 20, 30, 255⟩ ++ []) (fun _ => 0) (by decide)).2.2.2
      ⟨10, 20, 30, 255⟩ [] rfl⟩

set_option maxRecDepth 8192 in
/-- C11 (counterexample): a connect event for a handle that is in the map is
not a no-op. Handle 1 at position (961, 540) with color (10,20,30,255) is back
at (960, 540) with color (0,0,0,0) after `connect(1)`; the same happens in the
run connect(1), delta (1, 0), connect(1) from the empty map. -/
theorem C11_connect_overwrites_session :
    processEvent [(1, ⟨⟨F32.ofInt 961, F32.ofInt 540⟩, ⟨10, 20, 30, 255⟩⟩)] (.connect 1) =
      [(1, ⟨⟨F32.ofInt 960, F32.ofInt 540⟩, ⟨0, 0, 0, 0⟩⟩)] ∧
    processEvent [(1, ⟨⟨F32.ofInt 961, F32.ofInt 540⟩, ⟨10, 20, 30, 255⟩⟩)] (.connect 1) ≠
      [(1, ⟨⟨F32.ofInt 961, F32.ofInt 540⟩, ⟨10, 20, 30, 255⟩⟩)] ∧
    drain [] [.connect 1, .receive 1 (EVec.toBytes ⟨F32.ofInt 1, F32.ofInt 0⟩) (fun _ => 0)] =
      [(1, ⟨⟨F32.ofInt 961, F32.ofInt 540⟩, ⟨0, 0, 0, 0⟩⟩)] ∧
    drain [] [.connect 1, .receive 1 (EVec.toBytes ⟨F32.ofInt 1, F32.ofInt 0⟩) (fun _ => 0),
        .connect 1] =
      [(1, ⟨⟨F32.ofInt 960, F32.ofInt 540⟩, ⟨0, 0, 0, 0⟩⟩)] := by
  refine ⟨?_, ?_, ?_, ?_⟩ <;> decide

/-- C11 (amended): a connect event for a handle `h` that is already in the
map overwrites the session of `h` with the spawn session, position (960, 540)
and color (0,0,0,0); the handles of the map and the session of every other
handle are unchanged. -/
theorem C11_connect_existing_handle (players : Registry) (h : Handle)
    (hmem : h ∈ players.handles) :
    (processEvent players (.connect h)).find h =
        some ⟨⟨F32.ofInt 960, F32.ofInt 540⟩, ⟨0, 0, 0, 0⟩⟩ ∧
    (processEvent players (.connect h)).handles = players.handles ∧
    ∀ k, k ≠ h → (processEvent players (.connect h)).find k = players.find k := by
  simp only [processEvent]
  refine ⟨?_, ?_, ?_⟩
  · rw [Registry.index_of_mem _ hmem, Registry.find_update_same]
    cases hf : players.find h with
    | none => exact absurd hmem ((Registry.find_eq_none_iff players h).mp hf)
    | some info => rfl
  · rw [Registry.index_of_mem _ hmem, Registry.handles_update]
  · intro k hk
    exact Registry.find_index_other players h k _ hk

/-- C11 (amended) at a concrete input: handle 1, moved and colored, connects
again next to handle 2. -/
theorem C11_connect_existing_handle_witness :
    1 ∈ Registry.handles
      [(2, PlayerInfo.zero), (1, ⟨⟨F32.ofInt 961, F32.ofInt 540⟩, ⟨10, 20, 30, 255⟩⟩)] ∧
    ((processEvent
        [(2, PlayerInfo.zero), (1, ⟨⟨F32.ofInt 961, F32.ofInt 540⟩, ⟨10, 20, 30, 255⟩⟩)]
        (.connect 1)).find 1 = some ⟨⟨F32.ofInt 960, F32.ofInt 540⟩, ⟨0, 0, 0, 0⟩⟩ ∧
     (processEvent
        [(2, PlayerInfo.zero), (1, ⟨⟨F32.ofInt 961, F32.ofInt 540⟩, ⟨10, 20, 30, 255⟩⟩)]
        (.connect 1)).handles =
       Registry.handles
        [(2, PlayerInfo.zero), (1, ⟨⟨F32.ofInt 961, F32.ofInt 540⟩, ⟨10, 20, 30, 255⟩⟩)] ∧
     ∀ k, k ≠ 1 →
      (processEvent
        [(2, PlayerInfo.zero), (1, ⟨⟨F32.ofInt 961, F32.ofInt 540⟩, ⟨10, 20, 30, 255⟩⟩)]
        (.connect 1)).find k =
       Registry.find
        [(2, PlayerInfo.zero), (1, ⟨⟨F32.ofInt 961, F32.ofInt 540⟩, ⟨10, 20, 30, 255⟩⟩)] k) :=
  ⟨by decide,
   C11_connect_existing_handle
    [(2, PlayerInfo.zero), (1, ⟨⟨F32.ofInt 961, F32.ofInt 540⟩, ⟨10, 20, 30, 255⟩⟩)] 1
    (by decide)⟩

/-- C12 (counterexample): the alpha byte is stored as it is received. From
the empty map the payload `[10,20,30,7]` of handle 1 is stored as the color
(10,20,30,7), whose alpha is 7 and not 255. -/
theorem C12_alpha_stored_as_received :
    (∀ past : Nat → Byte,
      (processEvent [] (.receive 1 [10, 20, 30, 7] past)).find 1 =
        some ⟨⟨⟨0⟩, ⟨0⟩⟩, ⟨10, 20, 30, 7⟩⟩) ∧
    (∀ past : Nat → Byte,
      ((processEvent [] (.receive 1 [10, 20, 30, 7] past)).find 1).map (fun i => i.color.a) ≠
        some 255) :=
  by
  have hfind : ∀ past : Nat → Byte,
      (processEvent [] (.receive 1 [10, 20, 30, 7] past)).find 1 =
        some ⟨⟨⟨0⟩, ⟨0⟩⟩, ⟨10, 20, 30, 7⟩⟩ := fun _ => rfl
  refine ⟨hfind, fun past h => ?_⟩
  rw [hfind past] at h
  revert h
  decide

/-- C12 (amended): where the server stores a color from a payload, the branch
for a handle that is not in the map, the color stored for a payload that
starts with the bytes r, g, b, a is (r, g, b, a) as received: its alpha is
the byte `a`, and it is 255 exactly when the byte received is 255. -/
theorem C12_color_stored_unchanged (players : Registry) (h : Handle) (c : PlayerColor)
    (extra : List Byte) (past : Nat → Byte) (habs : h ∉ players.handles) :
    ((processEvent players (.receive h (c.toBytes ++ extra) past)).find h).map
        (fun i => i.color) = some c ∧
    ((processEvent players (.receive h (c.toBytes ++ extra) past)).find h).map
        (fun i => i.color.a) = some c.a ∧
    (((processEvent players (.receive h (c.toBytes ++ extra) past)).find h).map
        (fun i => i.color.a) = some 255 ↔ c.a = 255) := by
  rw [processEvent_receive_of_not_mem _ past habs, readColor_toBytes]
  simp [Registry.find]

/-- C12 (amended) at a concrete input: the identity payload (10,20,30,0)
from handle 1, which the map does not hold. -/
theorem C12_color_stored_unchanged_witness :
    1 ∉ Registry.handles [(2, PlayerInfo.spawn)] ∧
    ((processEvent [(2, PlayerInfo.spawn)]
        (.receive 1 (PlayerColor.toBytes ⟨10, 20, 30, 0⟩ ++ []) (fun _ => 0))).find 1).map
        (fun i => i.color.a) = some (PlayerColor.a ⟨10, 20, 30, 0⟩) :=
  ⟨by decide,
   (C12_color_stored_unchanged [(2, PlayerInfo.spawn)] 1 ⟨10, 20, 30, 0⟩ [] (fun _ => 0)
      (by decide)).2.1⟩

/-- C13: `takeDamage(d)` on a player of health `h` returns true exactly when
the float `h - d` is `<= 0`; the health stored is then exactly 0, and
otherwise it is `h - d`; so the health stored after the call is never below
0, and no other member of the player changes. -/
theorem C13_takeDamage (p : PlayerEntity) (d : F32) :
    ((p.takeDamage d).1 = true ↔ F32.le (p.health - d) (F32.ofInt 0) = true) ∧
    (p.takeDamage d).2.health =
      (if F32.le (p.health - d) (F32.ofInt 0) = true then F32.ofInt 0 else p.health - d) ∧
    F32.lt (p.takeDamage d).2.health (F32.ofInt 0) = false ∧
    (p.takeDamage d).2 = { p with health := (p.takeDamage d).2.health } := by
  cases hle : F32.le (p.health - d) (F32.ofInt 0) with
  | true =>
      simp only [PlayerEntity.takeDamage, hle, if_true, true_iff, true_and, and_true]
      exact F32.lt_zero_zero
  | false =>
      simp only [PlayerEntity.takeDamage, hle, Bool.false_eq_true, if_false, false_iff,
        not_false_eq_true, true_and, and_true]
      exact F32.lt_false_of_le_false _ _ hle

/-- C14: along every run of events from the empty map in which each receive
event of a handle lies between a connect and the next disconnect of that
handle, every session of every map reached on the way (the map after any
prefix of the run) has color (0,0,0,0). -/
theorem C14_color_never_set (pre post : List Event)
    (hws : wellSequenced [] (pre ++ post) = true) :
    ∀ e ∈ drain [] pre, e.2.color = ⟨0, 0, 0, 0⟩ :=
  colors_drain_wellSequenced pre post [] []
    (fun _ he => by cases he) (fun _ hh => by cases hh) hws

/-- C14 at a concrete input: handle 1 connects, sends the bytes 10, 20, 30,
255 and a delta, handle 2 connects; then handle 1 disconnects. -/
theorem C14_color_never_set_witness :
    wellSequenced []
      ([.connect 1, .receive 1 [10, 20, 30, 255] (fun _ => 0),
        .receive 1 (EVec.toBytes ⟨F32.ofInt 5, F32.ofInt (-3)⟩) (fun _ => 0), .connect 2] ++
       [.disconnect 1]) = true ∧
    ∀ e ∈ drain []
        [.connect 1, .receive 1 [10, 20, 30, 255] (fun _ => 0),
         .receive 1 (EVec.toBytes ⟨F32.ofInt 5, F32.ofInt (-3)⟩) (fun _ => 0), .connect 2],
      e.2.color = ⟨0, 0, 0, 0⟩ :=
  ⟨by decide,
   C14_color_never_set
    [.connect 1, .receive 1 [10, 20, 30, 255] (fun _ => 0),
     .receive 1 (EVec.toBytes ⟨F32.ofInt 5, F32.ofInt (-3)⟩) (fun _ => 0), .connect 2]
    [.disconnect 1] (by decide)⟩

end Danaagain
